import Mathlib

/-!
Verification of the cartographer scanning-and-scoring pipeline
(`cartographer.py`): import resolution, tagging, risk scoring, git and
test adjustments, concern classification, and report assembly, embedded
shallowly with exact rational arithmetic in place of Python floats.
-/

set_option maxHeartbeats 1000000

namespace Carto

/-- Python `pat in s` substring test, on character lists. -/
def hasSub (pat : List Char) : List Char → Bool
  | [] => pat.isEmpty
  | c :: t => pat.isPrefixOf (c :: t) || hasSub pat t

/-- Python `pat in s` substring test on strings. -/
def pyIn (pat s : String) : Bool := hasSub pat.data s.data

/-- Python `s.lstrip("./")`: drop all leading `.` and `/` characters. -/
def pyLstripDotSlash (s : String) : String :=
  String.mk (s.data.dropWhile (fun c => c = '.' || c = '/'))

/-- Python `s.strip(cs)` for a set of characters: drop them from both ends. -/
def pyStripChars (cs : List Char) (s : String) : String :=
  String.mk (((s.data.dropWhile (cs.contains ·)).reverse.dropWhile (cs.contains ·)).reverse)

/-- Python `s.replace(".", "/")`. -/
def dotToSlash (s : String) : String :=
  String.mk (s.data.map (fun c => if c = '.' then '/' else c))

/-- Python `s.replace("/", ".")`. -/
def slashToDot (s : String) : String :=
  String.mk (s.data.map (fun c => if c = '/' then '.' else c))

/-- Lowercase a string character by character. -/
def lowerStr (s : String) : String := String.mk (s.data.map Char.toLower)

/-- Split a character list at every occurrence of a separator character. -/
def splitChar (sep : Char) : List Char → List (List Char)
  | [] => [[]]
  | c :: t =>
    let r := splitChar sep t
    if c = sep then [] :: r
    else
      match r with
      | [] => [[c]]
      | h :: t' => (c :: h) :: t'

/-- Python `s.split("/")` (also `Path(s).parts` for relative paths). -/
def pySplitSlash (s : String) : List String := (splitChar '/' s.data).map String.mk

/-- Join strings with a separator. -/
def joinWith (sep : String) : List String → String
  | [] => ""
  | [x] => x
  | x :: xs => x ++ sep ++ joinWith sep xs

/-- Python `s.startswith(pat)`. -/
def strStarts (pat s : String) : Bool := pat.data.isPrefixOf s.data

/-- ASCII whitespace test for `strip`. -/
def isSpaceChar (c : Char) : Bool := c = ' ' || c = '\t' || c = '\n' || c = '\r'

/-- Python `s.strip()`. -/
def myTrim (s : String) : String :=
  String.mk (((s.data.dropWhile isSpaceChar).reverse.dropWhile isSpaceChar).reverse)

/-- Last `/`-separated segment of a path (`Path(rel).name`). -/
def lastSeg (rel : String) : String := ((pySplitSlash rel).getLast?).getD rel

/-- `Path(name).stem`: the file name with its final extension removed. -/
def dropExtName (name : String) : String :=
  let cs := name.data
  if (cs.drop 1).contains '.' then
    String.mk (((cs.reverse.dropWhile (· ≠ '.')).drop 1).reverse)
  else name

/-- `Path(name).suffix`: the final extension of a file name, dot included. -/
def extOf (name : String) : String :=
  let cs := name.data
  if (cs.drop 1).contains '.' then
    String.mk ('.' :: (cs.reverse.takeWhile (· ≠ '.')).reverse)
  else ""

/-- `str(Path(rel).with_suffix(''))`: the path with its extension removed. -/
def noExt (rel : String) : String :=
  let parts := pySplitSlash rel
  joinWith "/" (parts.dropLast ++ [dropExtName (((parts.getLast?).getD rel))])

/-- Association-list lookup (Python dict read access). -/
def alookup {β : Type} (l : List (String × β)) (k : String) : Option β :=
  match l with
  | [] => none
  | (k', v) :: t => if k' = k then some v else alookup t k

/-- Python `max(xs, default=1) or 1`: maximum of a list, with `1`
replacing both the empty maximum and a zero maximum. -/
def pyMaxOr1 (l : List Nat) : Nat :=
  match l with
  | [] => 1
  | x :: xs => let m := xs.foldl max x; if m = 0 then 1 else m

/-- Round-half-to-even to an integer, the rounding used by Python `round`. -/
def roundHalfEven (q : ℚ) : ℤ :=
  let f := Rat.floor q
  let r := q - f
  if r < 1/2 then f
  else if 1/2 < r then f + 1
  else if f % 2 = 0 then f else f + 1

/-- Python `round(q, 1)`: round to one decimal place, half to even. -/
def pyRound1 (q : ℚ) : ℚ := (roundHalfEven (10 * q) : ℚ) / 10

/-- One regex match occurrence: matched name, pattern category, line. -/
structure BindingPoint where
  name : String
  bp_type : String
  line : Nat
  deriving DecidableEq, Repr

/-- One discovered source file with its derived per-file data. -/
structure Node where
  id : String
  relative_path : String
  name : String
  language : String
  line_count : Nat
  size_bytes : Nat
  imports : List String
  binding_points : List BindingPoint
  tags : List String
  risk_score : ℚ
  fan_in : Nat
  fan_out : Nat
  git_changes : Nat
  has_tests : Bool
  concerns : List String
  deriving DecidableEq, Repr

/-- One directed import dependency edge. -/
structure Edge where
  source : String
  target : String
  edge_type : String
  label : String
  deriving DecidableEq, Repr

/-- One row of the ranked critical-files shortlist. -/
structure CritEntry where
  file : String
  risk_score : ℚ
  fan_in : Nat
  tags : List String
  binding_points : Nat
  deriving DecidableEq, Repr

/-- The immutable scan snapshot produced by one pipeline run. -/
structure ScanResult where
  total_files : Nat
  total_edges : Nat
  health_score : ℤ
  nodes : List Node
  edges : List Edge
  critical_files : List CritEntry
  deriving DecidableEq, Repr

/-- The `IGNORE_DIRS` table. -/
def IGNORE_DIRS : List String :=
  ["node_modules", ".git", "__pycache__", ".next", "dist", "build", ".build",
   "DerivedData", "Pods", "venv", ".venv", "env", ".env", "vendor", "target",
   "bin", "obj", ".idea", ".vscode", ".gradle", ".dart_tool", "coverage",
   ".cache", ".turbo", "out", ".output", ".expo", ".swiftpm", "xcuserdata"]

/-- The `IGNORE_FILES` table. -/
def IGNORE_FILES : List String :=
  [".DS_Store", "Thumbs.db", "package-lock.json", "yarn.lock",
   "pnpm-lock.yaml", "Podfile.lock", "poetry.lock"]

/-- The `LANG_MAP` extension-to-language table. -/
def LANG_MAP : List (String × String) :=
  [(".py", "python"), (".js", "javascript"), (".jsx", "javascript"),
   (".ts", "typescript"), (".tsx", "typescript"), (".swift", "swift"),
   (".m", "objc"), (".rs", "rust"), (".go", "go"), (".rb", "ruby"),
   (".java", "java"), (".kt", "kotlin"), (".c", "c"), (".h", "c"),
   (".cpp", "cpp"), (".hpp", "cpp"), (".cs", "c_sharp"), (".dart", "dart"),
   (".php", "php"), (".lua", "lua"), (".vue", "javascript"),
   (".svelte", "javascript")]

/-- The `CONCERN_KEYWORDS` label-to-keyword table. -/
def CONCERN_KEYWORDS : List (String × List String) :=
  [("authentication", ["auth", "login", "logout", "token", "jwt", "session",
      "password", "oauth", "signin", "signup", "credential"]),
   ("database", ["database", "db", "model", "schema", "migration", "query",
      "sql", "core_data", "realm", "sqlite", "mongo"]),
   ("networking", ["api", "http", "fetch", "request", "url", "endpoint",
      "rest", "graphql", "socket", "network"]),
   ("ui / views", ["view", "screen", "component", "widget", "layout", "page",
      "ui", "button", "form", "modal", "navigation"]),
   ("state management", ["state", "store", "redux", "context", "provider",
      "viewmodel", "observable", "published", "combine", "bloc"]),
   ("configuration", ["config", "env", "environment", "settings",
      "constants", "keys", "secret"]),
   ("payments", ["payment", "stripe", "billing", "subscription", "purchase",
      "storekit", "iap", "checkout"]),
   ("testing", ["test", "spec", "mock", "stub", "fixture", "assert"]),
   ("security", ["security", "encrypt", "decrypt", "keychain", "hash",
      "ssl", "cert"]),
   ("notifications", ["notification", "push", "alert", "apns", "fcm",
      "messaging"]),
   ("analytics", ["analytics", "tracking", "event", "metric", "log",
      "telemetry", "firebase"])]

/-- The `tm` binding-point-category-to-tag table of `_tag`. -/
def TM : List (String × String) :=
  [("protocols", "🔌 interface"), ("interfaces", "🔌 interface"),
   ("traits", "🔌 interface"), ("delegates", "📡 event-driven"),
   ("event_emitters", "📡 event-driven"), ("signals", "📡 event-driven"),
   ("combine", "📡 event-driven"), ("api_endpoints", "🌐 api-endpoint"),
   ("api_routes", "🌐 api-endpoint"), ("http_handlers", "🌐 api-endpoint"),
   ("routes", "🌐 api-endpoint"), ("spring_endpoints", "🌐 api-endpoint"),
   ("api_calls", "📤 api-consumer"), ("db_models", "💾 data-model"),
   ("core_data", "💾 data-model"), ("env_vars", "⚙️ config-dependent"),
   ("hooks", "🔄 state-management"), ("context", "🔄 state-management"),
   ("swiftui_env", "🔄 state-management"), ("providers", "🔄 state-management"),
   ("decorators", "🏷️ decorated"), ("annotations", "🏷️ decorated"),
   ("unsafe", "⚠️ unsafe-code"), ("ffi", "⚠️ unsafe-code"),
   ("goroutines", "⚡ concurrent"), ("coroutines", "⚡ concurrent")]

/-- The `risky` tag set used by `_risk`. -/
def riskyTags : List String :=
  ["🌐 api-endpoint", "💾 data-model", "⚠️ unsafe-code", "📡 event-driven"]

/-- The path-shape variant keys `_resolve` registers for one file:
relative path, extension-stripped path, stem, dotted path, `./` and `../`
prefixed paths, and for multi-segment paths the last two segments joined
by `/` and by `.`. -/
def variantKeys (n : Node) : List String :=
  let rel := n.relative_path
  let ne := noExt rel
  let stem := dropExtName (lastSeg rel)
  let base := [rel, ne, stem, slashToDot ne, "./" ++ ne, "../" ++ ne]
  let parts := pySplitSlash ne
  if 2 ≤ parts.length then
    base ++ [joinWith "/" (parts.drop (parts.length - 2)),
             joinWith "." (parts.drop (parts.length - 2))]
  else base

/-- The resolver's lookup table `lk`, built by registering every node's
variant keys in node order with plain dict assignment. -/
def buildLookup (ns : List Node) : String → Option String :=
  ns.foldl (fun acc n => fun k => if k ∈ variantKeys n then some n.id else acc k)
    (fun _ => none)

/-- `_resolve`'s per-import lookup: the import string as written, then
with leading `./`/`../` characters stripped and dots turned to slashes,
then with slashes turned to dots; first hit wins. -/
def resolveImp (lk : String → Option String) (imp : String) : Option String :=
  match lk imp with
  | some t => some t
  | none =>
    match lk (dotToSlash (pyLstripDotSlash imp)) with
    | some t => some t
    | none => lk (slashToDot (pyLstripDotSlash imp))

/-- Bump the resolved target's fan-in and the importing node's fan-out,
as the two dict updates in `_resolve` do. -/
def bumpNodes (ns : List Node) (src tgt : String) : List Node :=
  ns.map fun m =>
    if m.id = tgt then { m with fan_in := m.fan_in + 1 }
    else if m.id = src then { m with fan_out := m.fan_out + 1 }
    else m

/-- Process one `(importing file id, raw import string)` pair: on a
resolution that is not a self-reference, append one edge and bump the
two fan counters. -/
def resolveStep (lk : String → Option String) (st : List Node × List Edge)
    (w : String × String) : List Node × List Edge :=
  match resolveImp lk w.2 with
  | none => st
  | some t =>
    if t = w.1 then st
    else (bumpNodes st.1 w.1 t,
          st.2 ++ [{ source := w.1, target := t, edge_type := "import", label := w.2 }])

/-- The ordered `(file id, raw import)` work list `_resolve` iterates. -/
def workItems (ns : List Node) : List (String × String) :=
  (ns.map (fun n => n.imports.map (fun imp => (n.id, imp)))).flatten

/-- `_resolve`: build the lookup table, then process every import of
every node in order. -/
def resolveStage (ns : List Node) : List Node × List Edge :=
  let lk := buildLookup ns
  (workItems ns).foldl (resolveStep lk) (ns, [])

/-- `_tag` on one node: the set of tags its binding-point categories map
to under `TM`. -/
def tagAdjust (n : Node) : Node :=
  { n with tags := (n.binding_points.filterMap (fun bp => alookup TM bp.bp_type)).dedup }

/-- `_tag`: derive every node's tag set. -/
def tagStage (ns : List Node) : List Node := ns.map tagAdjust

/-- The weighted risk sum of `_risk`, before clamping and rounding. -/
def riskExpr (mfi mfo mlc : Nat) (n : Node) : ℚ :=
  ((n.fan_in : ℚ) / (mfi : ℚ)) * 35 + ((n.fan_out : ℚ) / (mfo : ℚ)) * 15 +
    min ((n.binding_points.length : ℚ) / 10) 1 * 25 +
    ((n.line_count : ℚ) / (mlc : ℚ)) * 10 +
    (((n.tags.dedup.filter (· ∈ riskyTags)).length : ℚ) / (max riskyTags.length 1 : ℚ)) * 15

/-- `_risk`: per-node weighted score normalized by scan-wide maxima,
capped at 100 and rounded to one decimal place. -/
def riskStage (ns : List Node) : List Node :=
  let mfi := pyMaxOr1 (ns.map (·.fan_in))
  let mfo := pyMaxOr1 (ns.map (·.fan_out))
  let mlc := pyMaxOr1 (ns.map (·.line_count))
  ns.map fun n => { n with risk_score := pyRound1 (min (riskExpr mfi mfo mlc n) 100) }

/-- `_git` on one node, given the six-month touch counts: record the
node's count and, when positive, add the normalized git term and re-cap. -/
def gitAdjust (counts : List (String × Nat)) (n : Node) : Node :=
  let mc := pyMaxOr1 (counts.map (·.2))
  let gc := (alookup counts n.relative_path).getD 0
  let n' := { n with git_changes := gc }
  if 0 < gc then
    { n' with risk_score := pyRound1 (min (n'.risk_score + ((gc : ℚ) / (mc : ℚ)) * 10) 100) }
  else n'

/-- `_git`: when the history query succeeded, adjust every node;
on any failure the stage is a no-op. -/
def gitStage (git : Option (List (String × Nat))) (ns : List Node) : List Node :=
  match git with
  | none => ns
  | some counts => ns.map (gitAdjust counts)

/-- The test-name fragments `tp` of `_tests`. -/
def testNamePats : List String :=
  ["test_", "_test.", ".test.", "spec.", "_spec.", "Test.", "Tests."]

/-- The test-directory names `td` of `_tests`. -/
def testDirs : List String := ["tests", "test", "__tests__", "spec"]

/-- The test classification of `_tests`: a test-name fragment occurs in
the filename, or some path segment is a test-directory name. -/
def isTestNode (n : Node) : Bool :=
  testNamePats.any (fun p => pyIn p n.name) ||
    (pySplitSlash n.relative_path).any (fun seg => seg ∈ testDirs)

/-- `_tests` on one node: record the flag; test nodes also get the test
tag and 20 points subtracted, floored at 0. -/
def testAdjust (n : Node) : Node :=
  let it := isTestNode n
  let n' := { n with has_tests := it }
  if it then
    { n' with tags := n'.tags ++ ["🧪 test"], risk_score := max (n'.risk_score - 20) 0 }
  else n'

/-- `_tests`: classify and adjust every node. -/
def testsStage (ns : List Node) : List Node := ns.map testAdjust

/-- The keyword score of `_concerns`: each keyword contributes the first
matching tier — 3 in the lowercased filename, else 2 in the lowercased
relative path, else 2 as a lowercased binding-point name, else 1 in the
lowercased content, else 0. -/
def concernScore (nml pl cl : String) (bpn : List String) (kws : List String) : Nat :=
  (kws.map fun kw =>
    if pyIn kw nml then 3
    else if pyIn kw pl then 2
    else if kw ∈ bpn then 2
    else if pyIn kw cl then 1
    else 0).sum

/-- `_concerns` on one node: keep each concern label whose keyword score
reaches 3. -/
def concernAdjust (contents : List (String × String)) (n : Node) : Node :=
  let cl := lowerStr ((alookup contents n.id).getD "")
  let pl := lowerStr n.relative_path
  let nml := lowerStr n.name
  let bpn := n.binding_points.map (fun bp => lowerStr bp.name)
  { n with concerns :=
      (CONCERN_KEYWORDS.filter (fun ckw => 3 ≤ concernScore nml pl cl bpn ckw.2)).map (·.1) }

/-- `_concerns`: classify every node. -/
def concernsStage (contents : List (String × String)) (ns : List Node) : List Node :=
  ns.map (concernAdjust contents)

/-- Stable descending insertion by risk score. -/
def insertDesc (x : Node) : List Node → List Node
  | [] => [x]
  | y :: ys => if y.risk_score ≤ x.risk_score then x :: y :: ys else y :: insertDesc x ys

/-- Python `sorted(nl, key=risk_score, reverse=True)`: stable descending
sort by risk score. -/
def sortDesc : List Node → List Node
  | [] => []
  | x :: xs => insertDesc x (sortDesc xs)

/-- One row of the critical-files list, carrying the node's relative
path, risk score, fan-in, tags and binding-point count. -/
def critEntry (n : Node) : CritEntry :=
  { file := n.relative_path, risk_score := n.risk_score, fan_in := n.fan_in,
    tags := n.tags, binding_points := n.binding_points.length }

/-- The health score of `_output`: `100` minus scaled average risk minus
the scaled untested-high-risk fraction plus the scaled tested fraction,
rounded to an integer and clamped to `[0, 100]`; denominators use
`len(nl) or 1`. -/
def healthOf (nl : List Node) : ℤ :=
  let total : ℚ := ((if nl.length = 0 then 1 else nl.length : Nat) : ℚ)
  let tested : Nat := nl.countP (fun n => n.has_tests || decide ("🧪 tested" ∈ n.tags))
  let cu : Nat := nl.countP (fun n => decide ((50 : ℚ) ≤ n.risk_score) && !n.has_tests)
  let avg : ℚ := ((nl.map (·.risk_score)).sum) / total
  max 0 (min 100 (roundHalfEven
    (100 - avg * (0.4 : ℚ) - ((cu : ℚ) / total) * 30 + ((tested : ℚ) / total) * 20)))

/-- `_output`: assemble the snapshot — totals, health score, nodes,
edges, and the critical-files list (sorted descending, first 20, risk
strictly above 15). -/
def outputStage (nl : List Node) (el : List Edge) : ScanResult :=
  { total_files := nl.length,
    total_edges := el.length,
    health_score := healthOf nl,
    nodes := nl,
    edges := el,
    critical_files :=
      (((sortDesc nl).take 20).filter (fun n => decide ((15 : ℚ) < n.risk_score))).map critEntry }

/-- The node list after the tag, risk, git, test and concern stages. -/
def finalNodes (ns : List Node) (contents : List (String × String))
    (git : Option (List (String × Nat))) : List Node :=
  concernsStage contents (testsStage (gitStage git (riskStage (tagStage (resolveStage ns).1))))

/-- `Scanner.scan` from the post-parse node set onward:
resolve, tag, risk, git, tests, concerns, output. -/
def scanFromParsed (ns : List Node) (contents : List (String × String))
    (git : Option (List (String × Nat))) : ScanResult :=
  outputStage (finalNodes ns contents git) (resolveStage ns).2

/-- One file entry of the modelled directory tree; `content = none`
models a file whose stat or read fails. -/
structure FSFile where
  name : String
  content : Option String
  size : Nat
  deriving DecidableEq, Repr

/-- A directory tree as walked by `_discover`. -/
inductive FSTree where
  | dir : String → List FSTree → List FSFile → FSTree

/-- The name of a directory node. -/
def FSTree.dirName : FSTree → String
  | .dir n _ _ => n

/-- Join a walk prefix with one more path segment. -/
def joinRel (pre name : String) : String :=
  if pre = "" then name else pre ++ "/" ++ name

/-- `_discover` on one file: skip ignored, dotted, unrecognized-extension
and unreadable files; otherwise build the zero-valued node and retain the
raw content keyed by file id. -/
def discoverFile (mkId : String → String) (pre : String) (f : FSFile) :
    Option (Node × (String × String)) :=
  if f.name ∈ IGNORE_FILES || strStarts "." f.name then none
  else
    match alookup LANG_MAP (lowerStr (extOf f.name)) with
    | none => none
    | some lang =>
      match f.content with
      | none => none
      | some content =>
        let rel := joinRel pre f.name
        let fid := mkId rel
        some ({ id := fid, relative_path := rel, name := f.name, language := lang,
                line_count := (content.data.filter (· = '\n')).length + 1,
                size_bytes := f.size, imports := [], binding_points := [],
                tags := [], risk_score := 0, fan_in := 0, fan_out := 0,
                git_changes := 0, has_tests := false, concerns := [] },
              (fid, content))

/-- `_discover`: pre-order walk collecting nodes and contents; ignored
and dotted subdirectories are pruned from traversal. -/
def discoverPairs (mkId : String → String) (pre : String) :
    FSTree → List (Node × (String × String))
  | .dir _ subs files =>
    (files.filterMap (discoverFile mkId pre)) ++
      (subs.attach.map (fun s =>
        if s.1.dirName ∈ IGNORE_DIRS || strStarts "." s.1.dirName then []
        else discoverPairs mkId (joinRel pre s.1.dirName) s.1)).flatten
  termination_by t => sizeOf t
  decreasing_by
    have h := List.sizeOf_lt_of_mem s.2
    simp only [FSTree.dir.sizeOf_spec]
    omega

/-- The scan's external collaborators: the regex extractor (language and
content to binding points), the optional git touch counts, the per-file
id hash and the project id hash. -/
structure ScanEnv where
  extract : String → String → List BindingPoint
  git : Option (List (String × Nat))
  mkId : String → String → String
  genId : String → String

/-- `_parse` on the discovered nodes: attach each node's binding points
and collect the `imports`-category names as its raw import strings. -/
def parseStage (ex : String → String → List BindingPoint)
    (contents : List (String × String)) (ns : List Node) : List Node :=
  ns.map fun n =>
    let bps := ex n.language ((alookup contents n.id).getD "")
    { n with binding_points := bps,
             imports := (bps.filter (fun bp => bp.bp_type == "imports")).map (·.name) }

/-- `Scanner.scan`: discover, parse, then the scoring pipeline. -/
def scan (env : ScanEnv) (tree : FSTree) (pid : String) : ScanResult :=
  let pairs := discoverPairs (env.mkId pid) "" tree
  let ns0 := pairs.map (·.1)
  let contents := pairs.map (·.2)
  scanFromParsed (parseStage env.extract contents ns0) contents env.git

/-- One registry entry of the server's project table. -/
structure ProjectEntry where
  root : String
  pname : String
  scan_data : Option ScanResult
  deriving DecidableEq, Repr

/-- The server's project registry and active-project pointer. -/
structure ServerState where
  projects : List (String × ProjectEntry)
  current : Option String
  deriving DecidableEq, Repr

/-- The filesystem as `load_project` consults it: path resolution, the
directory test, and the tree rooted at a resolved path. -/
structure FS where
  resolve : String → String
  isDir : String → Bool
  tree : String → FSTree

/-- The `MAX_PROJECTS` limit. -/
def MAX_PROJECTS : Nat := 2

/-- Python `str(path).strip().strip('"').strip("'")`. -/
def cleanPath (p : String) : String :=
  pyStripChars ['\''] (pyStripChars ['"'] (myTrim p))

/-- `Path(path).name`: the final path segment. -/
def baseName (p : String) : String := ((pySplitSlash p).getLast?).getD p

/-- Store a scan under a project id: update the entry in place when the
id is registered, append a fresh entry otherwise. -/
def upsertProject (l : List (String × ProjectEntry)) (pid : String)
    (root : String) (sd : ScanResult) : List (String × ProjectEntry) :=
  match alookup l pid with
  | some _ => l.map (fun kv =>
      if kv.1 = pid then (kv.1, { kv.2 with scan_data := some sd }) else kv)
  | none => l ++ [(pid, { root := root, pname := baseName root, scan_data := some sd })]

/-- `load_project`: clean and resolve the path, fail distinctly when it
is not a directory, fail when a new project would exceed the limit,
otherwise scan and register the snapshot and make the project current. -/
def load_project (env : ScanEnv) (fs : FS) (st : ServerState) (path : String) :
    Except String (ServerState × String × ScanResult) :=
  let p := fs.resolve (cleanPath path)
  if ¬ fs.isDir p then .error ("Not a directory: " ++ p)
  else
    let pid := env.genId p
    if (alookup st.projects pid).isNone ∧ MAX_PROJECTS ≤ st.projects.length then
      .error ("Maximum " ++ toString MAX_PROJECTS ++ " projects allowed. Close one first.")
    else
      let sd := scan env (fs.tree p) pid
      .ok ({ projects := upsertProject st.projects pid p sd, current := some pid }, pid, sd)

/-! Spec-side definitions, written from the specification's wording, to
be compared with the code-side definitions above. -/

/-- Modelled from the spec: the maximum of a quantity over all nodes of
the scan, "treated as 1 when zero". -/
def specMaxOr1 (l : List Nat) : Nat :=
  if l.foldr max 0 = 0 then 1 else l.foldr max 0

/-- Modelled from the spec: the claimed risk formula
`(fan_in/max_fan_in)*35 + (fan_out/max_fan_out)*15 +
min(binding_point_count/10,1)*25 + (line_count/max_line_count)*10 +
(|tags ∩ risky|/4)*15`. -/
def specRiskExpr (mfi mfo mlc : Nat) (n : Node) : ℚ :=
  ((n.fan_in : ℚ) / (mfi : ℚ)) * 35 + ((n.fan_out : ℚ) / (mfo : ℚ)) * 15 +
    min ((n.binding_points.length : ℚ) / 10) 1 * 25 +
    ((n.line_count : ℚ) / (mlc : ℚ)) * 10 +
    (((riskyTags.filter (· ∈ n.tags)).length : ℚ) / 4) * 15

/-- Modelled from the spec: the claimed per-node base risk score, the
formula clamped to `[0, 100]` and rounded to one decimal. -/
def specRisk (ns : List Node) (n : Node) : ℚ :=
  let mfi := specMaxOr1 (ns.map (·.fan_in))
  let mfo := specMaxOr1 (ns.map (·.fan_out))
  let mlc := specMaxOr1 (ns.map (·.line_count))
  pyRound1 (max 0 (min (specRiskExpr mfi mfo mlc n) 100))

/-- Modelled from the spec: the claimed health formula
`100 − 0.4·avg − 30·(fraction risk ≥ 50 without tests) + 20·(fraction
with tests)`, over the node count itself, clamped to `[0, 100]` and
rounded to an integer. -/
def specHealth (nl : List Node) : ℤ :=
  let nq : ℚ := (nl.length : ℚ)
  let avg : ℚ := ((nl.map (·.risk_score)).sum) / nq
  let fr : ℚ := ((nl.countP (fun n => decide ((50 : ℚ) ≤ n.risk_score) && !n.has_tests) : ℚ)) / nq
  let ft : ℚ := ((nl.countP (·.has_tests) : ℚ)) / nq
  max 0 (min 100 (roundHalfEven (100 - (0.4 : ℚ) * avg - 30 * fr + 20 * ft)))

/-- Modelled from the spec: the claimed concern score, additive per
keyword over all locations — 3 for a filename substring, plus 2 for a
substring of the path or of any binding-point name, plus 1 for a content
substring. -/
def specConcernScore (nml pl cl : String) (bpn : List String) (kws : List String) : Nat :=
  (kws.map fun kw =>
    (if pyIn kw nml then 3 else 0) +
      (if pyIn kw pl || bpn.any (fun b => pyIn kw b) then 2 else 0) +
      (if pyIn kw cl then 1 else 0)).sum

/-- The shape of the node set handed from discovery and parsing to the
scoring pipeline: distinct ids, zero-valued counters, empty derived sets. -/
def parsedOK (ns : List Node) : Prop :=
  (ns.map (·.id)).Nodup ∧
    ∀ n ∈ ns, n.fan_in = 0 ∧ n.fan_out = 0 ∧ n.tags = [] ∧
      n.has_tests = false ∧ n.risk_score = 0 ∧ n.git_changes = 0 ∧ n.concerns = []

instance : DecidablePred parsedOK := fun ns => by
  unfold parsedOK; infer_instance

/-! Concrete fixtures used to instantiate the general theorems. -/

instance : Inhabited Node :=
  ⟨{ id := "", relative_path := "", name := "", language := "", line_count := 0,
     size_bytes := 0, imports := [], binding_points := [], tags := [],
     risk_score := 0, fan_in := 0, fan_out := 0, git_changes := 0,
     has_tests := false, concerns := [] }⟩

/-- A blank post-parse node fixture. -/
def blankNode : Node :=
  { id := "f0", relative_path := "a.py", name := "a.py", language := "python",
    line_count := 1, size_bytes := 1, imports := [], binding_points := [],
    tags := [], risk_score := 0, fan_in := 0, fan_out := 0, git_changes := 0,
    has_tests := false, concerns := [] }

/-- Fixture: `a.py` importing `b`. -/
def exA : Node := { blankNode with id := "fa", imports := ["b"] }

/-- Fixture: `b.py`. -/
def exB : Node := { blankNode with id := "fb", relative_path := "b.py", name := "b.py" }

/-- Fixture: first-registered `a/utils.py`. -/
def exU1 : Node := { blankNode with id := "f1", relative_path := "a/utils.py", name := "utils.py" }

/-- Fixture: later-registered `b/utils.py`, colliding with `exU1` on the
stem key `utils`. -/
def exU2 : Node := { blankNode with id := "f2", relative_path := "b/utils.py", name := "utils.py" }

/-- Fixture: a file `token/x.py` whose content is `token`. -/
def exTok : Node := { blankNode with id := "fx", relative_path := "token/x.py", name := "x.py" }

/-- The keyword list of the `authentication` concern label. -/
def authKeywords : List String :=
  ["auth", "login", "logout", "token", "jwt", "session", "password",
   "oauth", "signin", "signup", "credential"]

/-- Fixture: a test-named file with a mid-range score. -/
def exTest : Node :=
  { blankNode with id := "ft", relative_path := "a_test.py", name := "a_test.py", risk_score := 30 }

/-- Fixture: a plainly named file with a mid-range score. -/
def exPlain : Node := { blankNode with id := "fp", risk_score := 30 }

/-- Fixture environment: empty extractor, no git data, identity hashes. -/
def exEnv : ScanEnv :=
  { extract := fun _ _ => [], git := none, mkId := fun _ rel => rel, genId := fun p => p }

/-- Fixture: a directory holding only one ignored file. -/
def exIgnoredTree : FSTree :=
  FSTree.dir "r" [] [{ name := "package-lock.json", content := some "", size := 0 }]

/-- Fixture: an empty directory named `d`. -/
def exEmptyTree : FSTree := FSTree.dir "d" [] []

/-- Fixture filesystem: only the path `d` is a directory, and it is empty. -/
def exFS : FS :=
  { resolve := fun s => s, isDir := fun s => s == "d", tree := fun _ => exEmptyTree }

/-- Fixture registry entry. -/
def exEntry : ProjectEntry := { root := "x", pname := "x", scan_data := none }

/-- Fixture server state already holding two projects, neither of them `d`. -/
def exSt2 : ServerState :=
  { projects := [("p1", exEntry), ("p2", exEntry)], current := none }

/-- Fixture server state holding no projects. -/
def exSt0 : ServerState := { projects := [], current := none }

/-- Sum of fan-in counters over a node list. -/
def fanInSum (ns : List Node) : ℕ := (ns.map (·.fan_in)).sum

/-- Sum of fan-out counters over a node list. -/
def fanOutSum (ns : List Node) : ℕ := (ns.map (·.fan_out)).sum

/-- The edge one work item produces, if any: a successful resolution to
a file other than the importer itself. -/
def edgeOf (lk : String → Option String) (w : String × String) : Option Edge :=
  match resolveImp lk w.2 with
  | none => none
  | some t =>
    if t = w.1 then none
    else some { source := w.1, target := t, edge_type := "import", label := w.2 }

/-! Arithmetic helper lemmas about the rounding model. -/

theorem ratFloor_eq_intFloor (q : ℚ) : Rat.floor q = ⌊q⌋ := by
  rw [Rat.floor_def', Rat.floor_def]

theorem roundHalfEven_nonneg (q : ℚ) (h : 0 ≤ q) : 0 ≤ roundHalfEven q := by
  have hf : (0 : ℤ) ≤ ⌊q⌋ := Int.floor_nonneg.mpr h
  unfold roundHalfEven
  rw [ratFloor_eq_intFloor]
  dsimp only
  split_ifs <;> omega

theorem roundHalfEven_le (q : ℚ) (C : ℤ) (h : q ≤ (C : ℚ)) : roundHalfEven q ≤ C := by
  have hfC : ⌊q⌋ ≤ C := by
    have := Int.floor_le_floor h
    simpa using this
  have hfloor : (⌊q⌋ : ℚ) ≤ q := Int.floor_le q
  unfold roundHalfEven
  rw [ratFloor_eq_intFloor]
  dsimp only
  split_ifs with h1 h2 h3
  · exact hfC
  · have hlt : (⌊q⌋ : ℚ) + 1/2 < (C : ℚ) := by linarith
    have : (⌊q⌋ : ℚ) < (C : ℚ) := by linarith
    have : ⌊q⌋ < C := by exact_mod_cast this
    omega
  · exact hfC
  · have heq : q - (⌊q⌋ : ℚ) = 1/2 := le_antisymm (not_lt.mp h2) (not_lt.mp h1)
    have : (⌊q⌋ : ℚ) + 1/2 ≤ (C : ℚ) := by linarith
    have : (⌊q⌋ : ℚ) < (C : ℚ) := by linarith
    have : ⌊q⌋ < C := by exact_mod_cast this
    omega

theorem pyRound1_nonneg (q : ℚ) (h : 0 ≤ q) : 0 ≤ pyRound1 q := by
  unfold pyRound1
  have h10 : (0 : ℚ) ≤ 10 * q := by linarith
  have := roundHalfEven_nonneg (10 * q) h10
  have : (0 : ℚ) ≤ ((roundHalfEven (10 * q) : ℤ) : ℚ) := by exact_mod_cast this
  positivity

theorem pyRound1_le_100 (q : ℚ) (h : q ≤ 100) : pyRound1 q ≤ 100 := by
  unfold pyRound1
  have h10 : 10 * q ≤ ((1000 : ℤ) : ℚ) := by push_cast; linarith
  have hr := roundHalfEven_le (10 * q) 1000 h10
  have hr' : ((roundHalfEven (10 * q) : ℤ) : ℚ) ≤ 1000 := by exact_mod_cast hr
  linarith

theorem pyRound1_bounds (q : ℚ) (h0 : 0 ≤ q) (h1 : q ≤ 100) :
    0 ≤ pyRound1 q ∧ pyRound1 q ≤ 100 :=
  ⟨pyRound1_nonneg q h0, pyRound1_le_100 q h1⟩

/-! The lookup table: dict assignment makes the last registration win. -/

theorem foldl_lookup_eq (ns : List Node) (f : String → Option String) (k : String) :
    (ns.foldl (fun acc n => fun q => if q ∈ variantKeys n then some n.id else acc q) f) k
      = match (ns.filter (fun n => decide (k ∈ variantKeys n))).getLast? with
        | some m => some m.id
        | none => f k := by
  induction ns generalizing f with
  | nil => simp
  | cons n rest ih =>
    simp only [List.foldl_cons, List.filter_cons]
    rw [ih]
    by_cases hn : k ∈ variantKeys n
    · simp only [hn, decide_True]
      cases hrest : rest.filter (fun n => decide (k ∈ variantKeys n)) with
      | nil => simp [hn]
      | cons m ms =>
        cases hgl : (m :: ms).getLast? with
        | none => simp at hgl
        | some x => simp [List.getLast?_cons_cons, hgl]
    · simp only [hn, decide_False]
      cases hrest : rest.filter (fun n => decide (k ∈ variantKeys n)) with
      | nil => simp [hn]
      | cons m ms => simp

theorem buildLookup_eq_getLast (ns : List Node) (k : String) :
    buildLookup ns k
      = ((ns.filter (fun n => decide (k ∈ variantKeys n))).getLast?).map (·.id) := by
  unfold buildLookup
  rw [foldl_lookup_eq]
  cases (ns.filter (fun n => decide (k ∈ variantKeys n))).getLast? <;> simp

theorem buildLookup_mem_ids (ns : List Node) (k v : String)
    (h : buildLookup ns k = some v) : v ∈ ns.map (·.id) := by
  rw [buildLookup_eq_getLast] at h
  cases hl : (ns.filter (fun n => decide (k ∈ variantKeys n))).getLast? with
  | none => rw [hl] at h; simp at h
  | some m =>
    rw [hl] at h
    simp only [Option.map_some'] at h
    have hm : m ∈ ns.filter (fun n => decide (k ∈ variantKeys n)) :=
      List.mem_of_mem_getLast? (by simp [hl])
    have hmem : m ∈ ns := (List.mem_filter.mp hm).1
    have := List.mem_map_of_mem (·.id) hmem
    injection h with h
    rw [← h]
    exact this

/-- C1: the claim says that on a key collision the first-registered file
wins in the resolver's lookup table. The code performs plain dict
assignment, so the later registration overwrites the earlier one: with
`a/utils.py` registered before `b/utils.py`, both register the stem key
`utils`, and the lookup resolves to the second file's id `f2`, not to
`f1`. -/
theorem claim_C1_counterexample :
    "utils" ∈ variantKeys exU1 ∧ "utils" ∈ variantKeys exU2 ∧ exU1.id ≠ exU2.id ∧
      buildLookup [exU1, exU2] "utils" = some exU2.id ∧
      buildLookup [exU1, exU2] "utils" ≠ some exU1.id := by
  refine ⟨by decide, by decide, by decide, ?_, ?_⟩ <;> decide

/-- C1 (amended): in the import resolver's lookup table, for every key
the entry is the id of the last file in registration order whose path
variants contain that key (last-registered wins); a later colliding file
overwrites the earlier file's entry, so every subsequent lookup on the
key resolves to the last-registered file. -/
theorem claim_C1 (ns : List Node) (k : String) :
    buildLookup ns k
      = ((ns.filter (fun n => decide (k ∈ variantKeys n))).getLast?).map (·.id) :=
  buildLookup_eq_getLast ns k

/-! Concern classification. -/

/-- C2: the claim reads the concern score additively — 3 per keyword in
the filename PLUS 2 per keyword in the path or a binding-point name PLUS
1 per keyword in the content. The code awards each keyword only its
first matching tier. For the file `token/x.py` with content `token`, the
keyword `token` scores 2 in the path and 1 in the content, so the
claimed score is 3 and the claim assigns `authentication`; the code's
tiered score is 2 and it assigns nothing. -/
theorem claim_C2_counterexample :
    ("authentication", authKeywords) ∈ CONCERN_KEYWORDS ∧
      3 ≤ specConcernScore (lowerStr exTok.name) (lowerStr exTok.relative_path)
          (lowerStr "token") (exTok.binding_points.map (fun bp => lowerStr bp.name))
          authKeywords ∧
      concernScore (lowerStr exTok.name) (lowerStr exTok.relative_path)
          (lowerStr "token") (exTok.binding_points.map (fun bp => lowerStr bp.name))
          authKeywords = 2 ∧
      "authentication" ∉ (concernAdjust [("fx", "token")] exTok).concerns := by
  refine ⟨by decide, by decide, by decide, by decide⟩

/-- C2 (amended): for every node and concern label, each keyword scores
only its first matching tier — 3 if it is a case-insensitive substring
of the filename, else 2 if a substring of the relative path, else 2 if
it equals the lowercased name of some binding point, else 1 if a
substring of the content, else 0 — and the label is assigned if and only
if the sum over the label's keywords is at least 3. -/
theorem claim_C2 (contents : List (String × String)) (n : Node) (c : String) :
    c ∈ (concernAdjust contents n).concerns ↔
      ∃ kws, (c, kws) ∈ CONCERN_KEYWORDS ∧
        3 ≤ concernScore (lowerStr n.name) (lowerStr n.relative_path)
            (lowerStr ((alookup contents n.id).getD ""))
            (n.binding_points.map (fun bp => lowerStr bp.name)) kws := by
  unfold concernAdjust
  simp only [List.mem_map, List.mem_filter, decide_eq_true_eq]
  constructor
  · rintro ⟨⟨l, kws⟩, ⟨hmem, hsc⟩, rfl⟩
    exact ⟨kws, hmem, hsc⟩
  · rintro ⟨kws, hmem, hsc⟩
    exact ⟨(c, kws), ⟨hmem, hsc⟩, rfl⟩

/-! Test classification and adjustment. -/

/-- C3: a node classified as a test (test-name fragment in the filename
or a test-directory path segment) receives the test tag, has its test
flag set, and its score becomes `max 0 (score_before − 20)`; a node not
so classified keeps its score (and tags) unchanged by this stage. -/
theorem claim_C3 (n : Node) :
    (isTestNode n = true →
       (testAdjust n).has_tests = true ∧ "🧪 test" ∈ (testAdjust n).tags ∧
         (testAdjust n).risk_score = max 0 (n.risk_score - 20)) ∧
    (isTestNode n = false →
       (testAdjust n).risk_score = n.risk_score ∧ (testAdjust n).has_tests = false ∧
         (testAdjust n).tags = n.tags) := by
  constructor
  · intro h
    refine ⟨?_, ?_, ?_⟩ <;> simp [testAdjust, h, max_comm]
  · intro h
    refine ⟨?_, ?_, ?_⟩ <;> simp [testAdjust, h]

/-- C3 witness at a test-named node and at a plainly named node. -/
theorem claim_C3_witness :
    (isTestNode exTest = true ∧
      ((testAdjust exTest).has_tests = true ∧ "🧪 test" ∈ (testAdjust exTest).tags ∧
        (testAdjust exTest).risk_score = max 0 (exTest.risk_score - 20))) ∧
    (isTestNode exPlain = false ∧
      ((testAdjust exPlain).risk_score = exPlain.risk_score ∧
        (testAdjust exPlain).has_tests = false ∧ (testAdjust exPlain).tags = exPlain.tags)) :=
  ⟨⟨by decide, (claim_C3 exTest).1 (by decide)⟩,
   ⟨by decide, (claim_C3 exPlain).2 (by decide)⟩⟩

/-! Risk scoring. -/

theorem foldl_max_eq (x : ℕ) (xs : List ℕ) : xs.foldl max x = max x (xs.foldr max 0) := by
  induction xs generalizing x with
  | nil => simp
  | cons y ys ih =>
    simp only [List.foldl_cons, List.foldr_cons]
    rw [ih (max x y), max_assoc]

theorem pyMaxOr1_eq_specMaxOr1 (l : List ℕ) : pyMaxOr1 l = specMaxOr1 l := by
  cases l with
  | nil => rfl
  | cons x xs =>
    unfold pyMaxOr1 specMaxOr1
    simp only [List.foldr_cons]
    rw [foldl_max_eq]

theorem filter_mem_length_comm (l₁ l₂ : List String) (h₂ : l₂.Nodup) :
    (l₁.dedup.filter (· ∈ l₂)).length = (l₂.filter (· ∈ l₁)).length := by
  have hd : l₁.dedup.Nodup := l₁.nodup_dedup
  rw [← List.toFinset_card_of_nodup (hd.filter _),
      ← List.toFinset_card_of_nodup (h₂.filter _)]
  rw [List.toFinset_filter, List.toFinset_filter]
  have hdf : l₁.dedup.toFinset = l₁.toFinset := by
    ext a
    simp [List.mem_toFinset, List.mem_dedup]
  rw [hdf]
  have e₁ : l₁.toFinset.filter (fun a => (decide (a ∈ l₂) : Bool) = true)
      = l₁.toFinset ∩ l₂.toFinset := by
    ext a
    simp [List.mem_toFinset]
  have e₂ : l₂.toFinset.filter (fun a => (decide (a ∈ l₁) : Bool) = true)
      = l₂.toFinset ∩ l₁.toFinset := by
    ext a
    simp [List.mem_toFinset]
  rw [e₁, e₂, Finset.inter_comm]

theorem specRiskExpr_nonneg (mfi mfo mlc : ℕ) (n : Node) :
    0 ≤ specRiskExpr mfi mfo mlc n := by
  unfold specRiskExpr
  have h3 : (0 : ℚ) ≤ min ((n.binding_points.length : ℚ) / 10) 1 :=
    le_min (by positivity) (by norm_num)
  have h1 : (0 : ℚ) ≤ ((n.fan_in : ℚ) / (mfi : ℚ)) * 35 := by positivity
  have h2 : (0 : ℚ) ≤ ((n.fan_out : ℚ) / (mfo : ℚ)) * 15 := by positivity
  have h4 : (0 : ℚ) ≤ ((n.line_count : ℚ) / (mlc : ℚ)) * 10 := by positivity
  have h5 : (0 : ℚ) ≤ (((riskyTags.filter (· ∈ n.tags)).length : ℚ) / 4) * 15 := by positivity
  nlinarith [h3]

theorem riskExpr_eq_spec (mfi mfo mlc : ℕ) (n : Node) :
    riskExpr mfi mfo mlc n = specRiskExpr mfi mfo mlc n := by
  unfold riskExpr specRiskExpr
  rw [filter_mem_length_comm n.tags riskyTags (by decide)]
  norm_num [riskyTags]

/-- C4: for every node, the base risk score equals the claimed weighted
sum — fan-in share ×35, fan-out share ×15, capped binding-point density
×25, line-count share ×10, risky-tag overlap quarter ×15, each maximum
taken over this scan and treated as 1 when zero — clamped to `[0, 100]`
and rounded to one decimal. -/
theorem claim_C4 (ns : List Node) :
    riskStage ns = ns.map (fun n => { n with risk_score := specRisk ns n }) := by
  simp only [riskStage, specRisk, pyMaxOr1_eq_specMaxOr1]
  apply List.map_congr_left
  intro n _
  have he := riskExpr_eq_spec (specMaxOr1 (ns.map (·.fan_in)))
    (specMaxOr1 (ns.map (·.fan_out))) (specMaxOr1 (ns.map (·.line_count))) n
  rw [he]
  have h0 : (0 : ℚ) ≤ min (specRiskExpr (specMaxOr1 (ns.map (·.fan_in)))
      (specMaxOr1 (ns.map (·.fan_out))) (specMaxOr1 (ns.map (·.line_count))) n) 100 :=
    le_min (specRiskExpr_nonneg _ _ _ _) (by norm_num)
  rw [max_eq_right h0]

/-! Resolver bookkeeping: edges, fan counters, self-edge freedom. -/

theorem edgeOf_some_spec {lk : String → Option String} {w : String × String} {e : Edge}
    (h : edgeOf lk w = some e) :
    resolveImp lk w.2 = some e.target ∧ e.source = w.1 ∧ e.target ≠ w.1 ∧
      e = { source := w.1, target := e.target, edge_type := "import", label := w.2 } := by
  cases hr : resolveImp lk w.2 with
  | none =>
    simp only [edgeOf, hr] at h
    exact Option.noConfusion h
  | some t =>
    simp only [edgeOf, hr] at h
    by_cases ht : t = w.1
    · rw [if_pos ht] at h
      exact Option.noConfusion h
    · rw [if_neg ht] at h
      obtain rfl : e = { source := w.1, target := t, edge_type := "import", label := w.2 } :=
        (Option.some.inj h).symm
      exact ⟨rfl, rfl, ht, rfl⟩

theorem resolveStep_of_none {lk : String → Option String} {w : String × String}
    (st : List Node × List Edge) (h : edgeOf lk w = none) : resolveStep lk st w = st := by
  cases hr : resolveImp lk w.2 with
  | none => simp only [resolveStep, hr]
  | some t =>
    simp only [edgeOf, hr] at h
    by_cases ht : t = w.1
    · simp only [resolveStep, hr]
      rw [if_pos ht]
    · rw [if_neg ht] at h
      exact absurd h (by simp)

theorem resolveStep_of_some {lk : String → Option String} {w : String × String} {e : Edge}
    (st : List Node × List Edge) (h : edgeOf lk w = some e) :
    resolveStep lk st w = (bumpNodes st.1 w.1 e.target, st.2 ++ [e]) := by
  obtain ⟨hr, hsrc, hne, hform⟩ := edgeOf_some_spec h
  simp only [resolveStep, hr, if_neg hne]
  rw [← hform]

theorem bumpNodes_ids (ns : List Node) (src tgt : String) :
    (bumpNodes ns src tgt).map (·.id) = ns.map (·.id) := by
  unfold bumpNodes
  rw [List.map_map]
  apply List.map_congr_left
  intro m _
  dsimp only [Function.comp]
  split_ifs <;> rfl

theorem resolveStep_ids (lk : String → Option String) (st : List Node × List Edge)
    (w : String × String) : (resolveStep lk st w).1.map (·.id) = st.1.map (·.id) := by
  cases h : edgeOf lk w with
  | none => rw [resolveStep_of_none st h]
  | some e => rw [resolveStep_of_some st h]; exact bumpNodes_ids _ _ _

theorem resolveFold_ids (lk : String → Option String) (ws : List (String × String))
    (st : List Node × List Edge) :
    ((ws.foldl (resolveStep lk) st).1).map (·.id) = st.1.map (·.id) := by
  induction ws generalizing st with
  | nil => rfl
  | cons w ws ih => rw [List.foldl_cons, ih, resolveStep_ids]

theorem resolveFold_snd (lk : String → Option String) (ws : List (String × String))
    (st : List Node × List Edge) :
    (ws.foldl (resolveStep lk) st).2 = st.2 ++ ws.filterMap (edgeOf lk) := by
  induction ws generalizing st with
  | nil => simp
  | cons w ws ih =>
    rw [List.foldl_cons, ih]
    cases h : edgeOf lk w with
    | none => rw [resolveStep_of_none st h]; simp [List.filterMap_cons, h]
    | some e => rw [resolveStep_of_some st h]; simp [List.filterMap_cons, h]

theorem bumpNodes_fanInSum (ns : List Node) (src tgt : String) :
    fanInSum (bumpNodes ns src tgt)
      = fanInSum ns + ns.countP (fun m => decide (m.id = tgt)) := by
  induction ns with
  | nil => rfl
  | cons m ms ih =>
    simp only [bumpNodes, List.map_cons, List.countP_cons, fanInSum, List.sum_cons,
      decide_eq_true_eq] at ih ⊢
    by_cases hm : m.id = tgt
    · rw [if_pos hm, if_pos hm, ih]
      dsimp only
      omega
    · rw [if_neg hm, if_neg hm, ih]
      by_cases hs : m.id = src
      · rw [if_pos hs]
        dsimp only
        omega
      · rw [if_neg hs]
        omega

theorem bumpNodes_fanOutSum (ns : List Node) (src tgt : String) (hne : src ≠ tgt) :
    fanOutSum (bumpNodes ns src tgt)
      = fanOutSum ns + ns.countP (fun m => decide (m.id = src)) := by
  induction ns with
  | nil => rfl
  | cons m ms ih =>
    simp only [bumpNodes, List.map_cons, List.countP_cons, fanOutSum, List.sum_cons,
      decide_eq_true_eq] at ih ⊢
    by_cases hm : m.id = tgt
    · have hs : ¬ m.id = src := fun hc => hne (hc ▸ hm ▸ rfl)
      rw [if_pos hm, if_neg hs, ih]
      dsimp only
      omega
    · rw [if_neg hm, ih]
      by_cases hs : m.id = src
      · rw [if_pos hs, if_pos hs]
        dsimp only
        omega
      · rw [if_neg hs, if_neg hs]
        omega

theorem countP_id_eq_one {ns : List Node} {t : String}
    (hnd : (ns.map (·.id)).Nodup) (hmem : t ∈ ns.map (·.id)) :
    ns.countP (fun m => decide (m.id = t)) = 1 := by
  induction ns with
  | nil => simp at hmem
  | cons m ms ih =>
    simp only [List.map_cons, List.nodup_cons] at hnd
    simp only [List.map_cons, List.mem_cons] at hmem
    rw [List.countP_cons]
    rcases hmem with hmem | hmem
    · have hz : ms.countP (fun m => decide (m.id = t)) = 0 := by
        rw [List.countP_eq_zero]
        intro a ha
        simp only [decide_eq_true_eq]
        intro hc
        exact hnd.1 (hmem ▸ hc ▸ List.mem_map_of_mem (·.id) ha)
      simp [hz, hmem.symm]
    · have hm : ¬ m.id = t := fun hc => hnd.1 (hc ▸ hmem)
      rw [ih hnd.2 hmem]
      simp [hm]

theorem resolveFold_fanInSum (lk : String → Option String) (ws : List (String × String))
    (st : List Node × List Edge) (hnd : (st.1.map (·.id)).Nodup)
    (htgt : ∀ w ∈ ws, ∀ e, edgeOf lk w = some e → e.target ∈ st.1.map (·.id)) :
    fanInSum (ws.foldl (resolveStep lk) st).1
      = fanInSum st.1 + (ws.filterMap (edgeOf lk)).length := by
  induction ws generalizing st with
  | nil => simp
  | cons w ws ih =>
    rw [List.foldl_cons]
    have hnd' : ((resolveStep lk st w).1.map (·.id)).Nodup := by
      rw [resolveStep_ids]; exact hnd
    have htgt' : ∀ w' ∈ ws, ∀ e, edgeOf lk w' = some e →
        e.target ∈ (resolveStep lk st w).1.map (·.id) := by
      intro w' hw' e he
      rw [resolveStep_ids]
      exact htgt w' (List.mem_cons_of_mem w hw') e he
    rw [ih _ hnd' htgt']
    cases h : edgeOf lk w with
    | none =>
      rw [resolveStep_of_none st h]
      simp [List.filterMap_cons, h]
    | some e =>
      rw [resolveStep_of_some st h]
      have hmem : e.target ∈ st.1.map (·.id) := htgt w (List.mem_cons_self w ws) e h
      simp only [bumpNodes_fanInSum, countP_id_eq_one hnd hmem, List.filterMap_cons, h,
        List.length_cons]
      omega

theorem resolveFold_fanOutSum (lk : String → Option String) (ws : List (String × String))
    (st : List Node × List Edge) (hnd : (st.1.map (·.id)).Nodup)
    (hsrc : ∀ w ∈ ws, w.1 ∈ st.1.map (·.id)) :
    fanOutSum (ws.foldl (resolveStep lk) st).1
      = fanOutSum st.1 + (ws.filterMap (edgeOf lk)).length := by
  induction ws generalizing st with
  | nil => simp
  | cons w ws ih =>
    rw [List.foldl_cons]
    have hnd' : ((resolveStep lk st w).1.map (·.id)).Nodup := by
      rw [resolveStep_ids]; exact hnd
    have hsrc' : ∀ w' ∈ ws, w'.1 ∈ (resolveStep lk st w).1.map (·.id) := by
      intro w' hw'
      rw [resolveStep_ids]
      exact hsrc w' (List.mem_cons_of_mem w hw')
    rw [ih _ hnd' hsrc']
    cases h : edgeOf lk w with
    | none =>
      rw [resolveStep_of_none st h]
      simp [List.filterMap_cons, h]
    | some e =>
      obtain ⟨_, hes, het, _⟩ := edgeOf_some_spec h
      rw [resolveStep_of_some st h]
      have hne : w.1 ≠ e.target := fun hc => het hc.symm
      have hmem : w.1 ∈ st.1.map (·.id) := hsrc w (List.mem_cons_self w ws)
      simp only [bumpNodes_fanOutSum _ _ _ hne, countP_id_eq_one hnd hmem,
        List.filterMap_cons, h, List.length_cons]
      omega

theorem resolveImp_mem_ids (ns : List Node) (k t : String)
    (h : resolveImp (buildLookup ns) k = some t) : t ∈ ns.map (·.id) := by
  unfold resolveImp at h
  cases h1 : buildLookup ns k with
  | some v =>
    rw [h1] at h
    injection h with h
    exact h ▸ buildLookup_mem_ids ns k v h1
  | none =>
    rw [h1] at h
    cases h2 : buildLookup ns (dotToSlash (pyLstripDotSlash k)) with
    | some v =>
      rw [h2] at h
      injection h with h
      exact h ▸ buildLookup_mem_ids ns _ v h2
    | none =>
      rw [h2] at h
      exact buildLookup_mem_ids ns _ t h

theorem workItems_src (ns : List Node) : ∀ w ∈ workItems ns, w.1 ∈ ns.map (·.id) := by
  intro w hw
  unfold workItems at hw
  rw [List.mem_flatten] at hw
  obtain ⟨l, hl, hwl⟩ := hw
  rw [List.mem_map] at hl
  obtain ⟨n, hn, rfl⟩ := hl
  rw [List.mem_map] at hwl
  obtain ⟨imp, _, rfl⟩ := hwl
  exact List.mem_map_of_mem (·.id) hn

theorem resolveStage_snd (ns : List Node) :
    (resolveStage ns).2 = (workItems ns).filterMap (edgeOf (buildLookup ns)) := by
  unfold resolveStage
  rw [resolveFold_snd]
  simp

theorem resolveStage_ids (ns : List Node) :
    (resolveStage ns).1.map (·.id) = ns.map (·.id) := by
  unfold resolveStage
  rw [resolveFold_ids]

theorem edgeOf_target_mem (ns : List Node) :
    ∀ w ∈ workItems ns, ∀ e, edgeOf (buildLookup ns) w = some e →
      e.target ∈ ns.map (·.id) := by
  intro w _ e he
  obtain ⟨hr, _, _, _⟩ := edgeOf_some_spec he
  exact resolveImp_mem_ids ns w.2 e.target hr

theorem fanInSum_eq_zero {ns : List Node} (h : ∀ n ∈ ns, n.fan_in = 0) :
    fanInSum ns = 0 := by
  unfold fanInSum
  apply List.sum_eq_zero
  intro x hx
  rw [List.mem_map] at hx
  obtain ⟨n, hn, rfl⟩ := hx
  exact h n hn

theorem fanOutSum_eq_zero {ns : List Node} (h : ∀ n ∈ ns, n.fan_out = 0) :
    fanOutSum ns = 0 := by
  unfold fanOutSum
  apply List.sum_eq_zero
  intro x hx
  rw [List.mem_map] at hx
  obtain ⟨n, hn, rfl⟩ := hx
  exact h n hn

theorem resolveStage_fanInSum (ns : List Node) (hnd : (ns.map (·.id)).Nodup)
    (hz : ∀ n ∈ ns, n.fan_in = 0) :
    fanInSum (resolveStage ns).1 = (resolveStage ns).2.length := by
  unfold resolveStage
  rw [resolveFold_fanInSum (buildLookup ns) (workItems ns) (ns, []) hnd
        (edgeOf_target_mem ns),
      resolveFold_snd]
  simp [fanInSum_eq_zero hz]

theorem resolveStage_fanOutSum (ns : List Node) (hnd : (ns.map (·.id)).Nodup)
    (hz : ∀ n ∈ ns, n.fan_out = 0) :
    fanOutSum (resolveStage ns).1 = (resolveStage ns).2.length := by
  unfold resolveStage
  rw [resolveFold_fanOutSum (buildLookup ns) (workItems ns) (ns, []) hnd
        (workItems_src ns),
      resolveFold_snd]
  simp [fanOutSum_eq_zero hz]

/-! Later stages keep fan counters untouched. -/

theorem fanInSum_map_eq (f : Node → Node) (hf : ∀ n, (f n).fan_in = n.fan_in)
    (ns : List Node) : fanInSum (ns.map f) = fanInSum ns := by
  unfold fanInSum
  rw [List.map_map]
  congr 1
  apply List.map_congr_left
  intro n _
  exact hf n

theorem fanOutSum_map_eq (f : Node → Node) (hf : ∀ n, (f n).fan_out = n.fan_out)
    (ns : List Node) : fanOutSum (ns.map f) = fanOutSum ns := by
  unfold fanOutSum
  rw [List.map_map]
  congr 1
  apply List.map_congr_left
  intro n _
  exact hf n

theorem testAdjust_fan_in (n : Node) : (testAdjust n).fan_in = n.fan_in := by
  unfold testAdjust
  dsimp only
  split_ifs <;> rfl

theorem testAdjust_fan_out (n : Node) : (testAdjust n).fan_out = n.fan_out := by
  unfold testAdjust
  dsimp only
  split_ifs <;> rfl

theorem gitAdjust_fan_in (counts : List (String × Nat)) (n : Node) :
    (gitAdjust counts n).fan_in = n.fan_in := by
  unfold gitAdjust
  dsimp only
  split_ifs <;> rfl

theorem gitAdjust_fan_out (counts : List (String × Nat)) (n : Node) :
    (gitAdjust counts n).fan_out = n.fan_out := by
  unfold gitAdjust
  dsimp only
  split_ifs <;> rfl

theorem tagStage_fanInSum (x : List Node) : fanInSum (tagStage x) = fanInSum x :=
  fanInSum_map_eq tagAdjust (fun _ => rfl) x

theorem tagStage_fanOutSum (x : List Node) : fanOutSum (tagStage x) = fanOutSum x :=
  fanOutSum_map_eq tagAdjust (fun _ => rfl) x

theorem riskStage_fanInSum (x : List Node) : fanInSum (riskStage x) = fanInSum x := by
  simp only [riskStage]
  apply fanInSum_map_eq
  intro n
  rfl

theorem riskStage_fanOutSum (x : List Node) : fanOutSum (riskStage x) = fanOutSum x := by
  simp only [riskStage]
  apply fanOutSum_map_eq
  intro n
  rfl

theorem gitStage_fanInSum (g : Option (List (String × Nat))) (x : List Node) :
    fanInSum (gitStage g x) = fanInSum x := by
  cases g with
  | none => rfl
  | some counts => exact fanInSum_map_eq _ (gitAdjust_fan_in counts) x

theorem gitStage_fanOutSum (g : Option (List (String × Nat))) (x : List Node) :
    fanOutSum (gitStage g x) = fanOutSum x := by
  cases g with
  | none => rfl
  | some counts => exact fanOutSum_map_eq _ (gitAdjust_fan_out counts) x

theorem testsStage_fanInSum (x : List Node) : fanInSum (testsStage x) = fanInSum x :=
  fanInSum_map_eq testAdjust testAdjust_fan_in x

theorem testsStage_fanOutSum (x : List Node) : fanOutSum (testsStage x) = fanOutSum x :=
  fanOutSum_map_eq testAdjust testAdjust_fan_out x

theorem concernsStage_fanInSum (c : List (String × String)) (x : List Node) :
    fanInSum (concernsStage c x) = fanInSum x :=
  fanInSum_map_eq (concernAdjust c) (fun _ => rfl) x

theorem concernsStage_fanOutSum (c : List (String × String)) (x : List Node) :
    fanOutSum (concernsStage c x) = fanOutSum x :=
  fanOutSum_map_eq (concernAdjust c) (fun _ => rfl) x

theorem finalNodes_fanInSum (ns : List Node) (contents : List (String × String))
    (git : Option (List (String × Nat))) :
    fanInSum (finalNodes ns contents git) = fanInSum (resolveStage ns).1 := by
  unfold finalNodes
  rw [concernsStage_fanInSum, testsStage_fanInSum, gitStage_fanInSum,
    riskStage_fanInSum, tagStage_fanInSum]

theorem finalNodes_fanOutSum (ns : List Node) (contents : List (String × String))
    (git : Option (List (String × Nat))) :
    fanOutSum (finalNodes ns contents git) = fanOutSum (resolveStage ns).1 := by
  unfold finalNodes
  rw [concernsStage_fanOutSum, testsStage_fanOutSum, gitStage_fanOutSum,
    riskStage_fanOutSum, tagStage_fanOutSum]

/-- C6: in every completed scan (distinct file ids, zero-initialized
counters), the fan-in counters sum to the edge count, the fan-out
counters sum to the edge count, no edge is a self-edge, and the edge
list is exactly one edge per resolved non-self import statement in work
order — multiple resolved imports between the same ordered pair of
files yield multiple edges. -/
theorem claim_C6 (ns : List Node) (contents : List (String × String))
    (git : Option (List (String × Nat))) (h : parsedOK ns) :
    fanInSum (scanFromParsed ns contents git).nodes
        = (scanFromParsed ns contents git).edges.length ∧
      fanOutSum (scanFromParsed ns contents git).nodes
        = (scanFromParsed ns contents git).edges.length ∧
      (∀ e ∈ (scanFromParsed ns contents git).edges, e.source ≠ e.target) ∧
      (scanFromParsed ns contents git).edges
        = (workItems ns).filterMap (edgeOf (buildLookup ns)) := by
  obtain ⟨hnd, hprops⟩ := h
  have hnodes : (scanFromParsed ns contents git).nodes = finalNodes ns contents git := rfl
  have hedges : (scanFromParsed ns contents git).edges = (resolveStage ns).2 := rfl
  refine ⟨?_, ?_, ?_, ?_⟩
  · rw [hnodes, hedges, finalNodes_fanInSum,
      resolveStage_fanInSum ns hnd (fun n hn => (hprops n hn).1)]
  · rw [hnodes, hedges, finalNodes_fanOutSum,
      resolveStage_fanOutSum ns hnd (fun n hn => (hprops n hn).2.1)]
  · intro e he
    rw [hedges, resolveStage_snd] at he
    rw [List.mem_filterMap] at he
    obtain ⟨w, _, hw⟩ := he
    obtain ⟨_, hsrc, htgt, _⟩ := edgeOf_some_spec hw
    rw [hsrc]
    exact fun hc => htgt hc.symm
  · rw [hedges, resolveStage_snd]

/-- C6 witness: the two-file fixture `a.py imports b`, `b.py`. -/
theorem claim_C6_witness :
    parsedOK [exA, exB] ∧
      (fanInSum (scanFromParsed [exA, exB] [] none).nodes
          = (scanFromParsed [exA, exB] [] none).edges.length ∧
        fanOutSum (scanFromParsed [exA, exB] [] none).nodes
          = (scanFromParsed [exA, exB] [] none).edges.length ∧
        (∀ e ∈ (scanFromParsed [exA, exB] [] none).edges, e.source ≠ e.target) ∧
        (scanFromParsed [exA, exB] [] none).edges
          = (workItems [exA, exB]).filterMap (edgeOf (buildLookup [exA, exB]))) :=
  ⟨by decide, claim_C6 [exA, exB] [] none (by decide)⟩

/-! Score bounds through the pipeline. -/

theorem riskExpr_nonneg (mfi mfo mlc : ℕ) (n : Node) : 0 ≤ riskExpr mfi mfo mlc n := by
  rw [riskExpr_eq_spec]
  exact specRiskExpr_nonneg mfi mfo mlc n

theorem riskStage_bounds (x : List Node) :
    ∀ n ∈ riskStage x, 0 ≤ n.risk_score ∧ n.risk_score ≤ 100 := by
  intro n hn
  simp only [riskStage, List.mem_map] at hn
  obtain ⟨m, _, rfl⟩ := hn
  dsimp only
  constructor
  · exact pyRound1_nonneg _ (le_min (riskExpr_nonneg _ _ _ _) (by norm_num))
  · exact pyRound1_le_100 _ (min_le_right _ _)

theorem gitAdjust_bounds (counts : List (String × Nat)) (n : Node)
    (h0 : 0 ≤ n.risk_score) (h1 : n.risk_score ≤ 100) :
    0 ≤ (gitAdjust counts n).risk_score ∧ (gitAdjust counts n).risk_score ≤ 100 := by
  unfold gitAdjust
  dsimp only
  split_ifs with hgc
  · constructor
    · refine pyRound1_nonneg _ (le_min ?_ (by norm_num))
      have : (0 : ℚ) ≤ (((alookup counts n.relative_path).getD 0 : ℕ) : ℚ)
          / ((pyMaxOr1 (counts.map (·.2)) : ℕ) : ℚ) * 10 := by positivity
      linarith
    · exact pyRound1_le_100 _ (min_le_right _ _)
  · exact ⟨h0, h1⟩

theorem testAdjust_bounds (n : Node) (h0 : 0 ≤ n.risk_score) (h1 : n.risk_score ≤ 100) :
    0 ≤ (testAdjust n).risk_score ∧ (testAdjust n).risk_score ≤ 100 := by
  unfold testAdjust
  dsimp only
  split_ifs with ht
  · constructor
    · exact le_max_right _ _
    · exact max_le (by linarith) (by norm_num)
  · exact ⟨h0, h1⟩

theorem gitStage_bounds (g : Option (List (String × Nat))) (x : List Node)
    (hx : ∀ n ∈ x, 0 ≤ n.risk_score ∧ n.risk_score ≤ 100) :
    ∀ n ∈ gitStage g x, 0 ≤ n.risk_score ∧ n.risk_score ≤ 100 := by
  cases g with
  | none => exact hx
  | some counts =>
    intro n hn
    simp only [gitStage, List.mem_map] at hn
    obtain ⟨m, hm, rfl⟩ := hn
    exact gitAdjust_bounds counts m (hx m hm).1 (hx m hm).2

theorem testsStage_bounds (x : List Node)
    (hx : ∀ n ∈ x, 0 ≤ n.risk_score ∧ n.risk_score ≤ 100) :
    ∀ n ∈ testsStage x, 0 ≤ n.risk_score ∧ n.risk_score ≤ 100 := by
  intro n hn
  simp only [testsStage, List.mem_map] at hn
  obtain ⟨m, hm, rfl⟩ := hn
  exact testAdjust_bounds m (hx m hm).1 (hx m hm).2

theorem concernsStage_bounds (c : List (String × String)) (x : List Node)
    (hx : ∀ n ∈ x, 0 ≤ n.risk_score ∧ n.risk_score ≤ 100) :
    ∀ n ∈ concernsStage c x, 0 ≤ n.risk_score ∧ n.risk_score ≤ 100 := by
  intro n hn
  simp only [concernsStage, List.mem_map] at hn
  obtain ⟨m, hm, rfl⟩ := hn
  exact hx m hm

theorem finalNodes_bounds (ns : List Node) (contents : List (String × String))
    (git : Option (List (String × Nat))) :
    ∀ n ∈ finalNodes ns contents git, 0 ≤ n.risk_score ∧ n.risk_score ≤ 100 := by
  unfold finalNodes
  exact concernsStage_bounds _ _ (testsStage_bounds _ (gitStage_bounds _ _
    (riskStage_bounds _)))

theorem healthOf_bounds (nl : List Node) : 0 ≤ healthOf nl ∧ healthOf nl ≤ 100 := by
  unfold healthOf
  dsimp only
  exact ⟨le_max_left 0 _, max_le (by norm_num) (min_le_left _ _)⟩

/-- C7: in every completed scan, every node's final risk score (after
the risk, git-adjustment, and test-adjustment stages) lies in
`[0, 100]`, and the project health score lies in `[0, 100]`. -/
theorem claim_C7 (ns : List Node) (contents : List (String × String))
    (git : Option (List (String × Nat))) :
    (∀ n ∈ (scanFromParsed ns contents git).nodes,
        0 ≤ n.risk_score ∧ n.risk_score ≤ 100) ∧
      0 ≤ (scanFromParsed ns contents git).health_score ∧
      (scanFromParsed ns contents git).health_score ≤ 100 := by
  refine ⟨?_, ?_, ?_⟩
  · intro n hn
    exact finalNodes_bounds ns contents git n hn
  · exact (healthOf_bounds (finalNodes ns contents git)).1
  · exact (healthOf_bounds (finalNodes ns contents git)).2

/-- C7 witness at a one-file fixture, including its concrete node. -/
theorem claim_C7_witness :
    0 ≤ (scanFromParsed [exA] [] none).health_score ∧
      (scanFromParsed [exA] [] none).health_score ≤ 100 ∧
      0 ≤ ((scanFromParsed [exA] [] none).nodes.headI).risk_score ∧
      ((scanFromParsed [exA] [] none).nodes.headI).risk_score ≤ 100 := by
  have h := claim_C7 [exA] [] none
  have hmem : (scanFromParsed [exA] [] none).nodes.headI
      ∈ (scanFromParsed [exA] [] none).nodes :=
    List.mem_cons_self _ _
  exact ⟨h.2.1, h.2.2, (h.1 _ hmem).1, (h.1 _ hmem).2⟩

/-! Health score: the tag `🧪 tested` can never occur, so the tested
count is exactly the `has_tests` count. -/

theorem alookup_mem_values {β : Type} (l : List (String × β)) (k : String) (v : β)
    (h : alookup l k = some v) : v ∈ l.map (·.2) := by
  induction l with
  | nil => simp [alookup] at h
  | cons p t ih =>
    unfold alookup at h
    by_cases hk : p.1 = k
    · rw [if_pos hk] at h
      injection h with h
      exact h ▸ List.mem_map_of_mem (·.2) (List.mem_cons_self p t)
    · rw [if_neg hk] at h
      exact List.mem_cons_of_mem _ (ih h)

theorem tagStage_tags (x : List Node) :
    ∀ n ∈ tagStage x, ∀ t ∈ n.tags, t ∈ TM.map (·.2) := by
  intro n hn t ht
  simp only [tagStage, List.mem_map] at hn
  obtain ⟨m, _, rfl⟩ := hn
  simp only [tagAdjust] at ht
  rw [List.mem_dedup, List.mem_filterMap] at ht
  obtain ⟨bp, _, hbp⟩ := ht
  exact alookup_mem_values TM bp.bp_type t hbp

theorem gitAdjust_tags (counts : List (String × Nat)) (n : Node) :
    (gitAdjust counts n).tags = n.tags := by
  unfold gitAdjust
  dsimp only
  split_ifs <;> rfl

theorem testAdjust_tags (n : Node) :
    (testAdjust n).tags = n.tags ∨ (testAdjust n).tags = n.tags ++ ["🧪 test"] := by
  unfold testAdjust
  dsimp only
  split_ifs
  · right; rfl
  · left; rfl

theorem finalNodes_no_tested (ns : List Node) (contents : List (String × String))
    (git : Option (List (String × Nat))) :
    ∀ n ∈ finalNodes ns contents git, "🧪 tested" ∉ n.tags := by
  intro n hn
  unfold finalNodes at hn
  simp only [concernsStage, List.mem_map] at hn
  obtain ⟨m5, hm5, rfl⟩ := hn
  simp only [testsStage, List.mem_map] at hm5
  obtain ⟨m4, hm4, rfl⟩ := hm5
  have hm4tags : ∀ t ∈ m4.tags, t ∈ TM.map (·.2) := by
    intro t ht
    cases git with
    | none =>
      simp only [gitStage] at hm4
      simp only [riskStage, List.mem_map] at hm4
      obtain ⟨m2, hm2, rfl⟩ := hm4
      exact tagStage_tags _ m2 hm2 t ht
    | some counts =>
      simp only [gitStage, List.mem_map] at hm4
      obtain ⟨m3, hm3, rfl⟩ := hm4
      rw [gitAdjust_tags] at ht
      simp only [riskStage, List.mem_map] at hm3
      obtain ⟨m2, hm2, rfl⟩ := hm3
      exact tagStage_tags _ m2 hm2 t ht
  show "🧪 tested" ∉ (concernAdjust contents (testAdjust m4)).tags
  have hct : (concernAdjust contents (testAdjust m4)).tags = (testAdjust m4).tags := rfl
  rw [hct]
  rcases testAdjust_tags m4 with hta | hta <;> rw [hta]
  · intro hc
    have := hm4tags _ hc
    revert this
    decide
  · intro hc
    rcases List.mem_append.mp hc with hc | hc
    · have := hm4tags _ hc
      revert this
      decide
    · revert hc
      decide

theorem resolveStage_length (ns : List Node) :
    (resolveStage ns).1.length = ns.length := by
  have h := congrArg List.length (resolveStage_ids ns)
  simpa [List.length_map] using h

theorem finalNodes_length (ns : List Node) (contents : List (String × String))
    (git : Option (List (String × Nat))) :
    (finalNodes ns contents git).length = ns.length := by
  unfold finalNodes concernsStage testsStage
  cases git with
  | none =>
    simp only [gitStage, riskStage, tagStage, List.length_map]
    exact resolveStage_length ns
  | some counts =>
    simp only [gitStage, riskStage, tagStage, List.length_map]
    exact resolveStage_length ns

theorem healthOf_eq_spec (nl : List Node) (hne : nl ≠ [])
    (hnt : ∀ n ∈ nl, "🧪 tested" ∉ n.tags) : healthOf nl = specHealth nl := by
  unfold healthOf specHealth
  have hlen : ¬ nl.length = 0 := by
    simpa [List.length_eq_zero] using hne
  rw [if_neg hlen]
  have hcount : nl.countP (fun n => n.has_tests || decide ("🧪 tested" ∈ n.tags))
      = nl.countP (fun n => n.has_tests) := by
    apply List.countP_congr
    intro n hn
    have hd : decide ("🧪 tested" ∈ n.tags) = false := decide_eq_false (hnt n hn)
    simp [hd]
  rw [hcount]
  dsimp only
  congr 1
  congr 1
  ring_nf

/-- C5: for every scan with at least one node, the health score equals
`100 − 0.4·(average risk) − 30·(fraction with risk ≥ 50 and no test
flag) + 20·(fraction with a test flag)`, rounded to an integer and
clamped to `[0, 100]`. -/
theorem claim_C5 (ns : List Node) (contents : List (String × String))
    (git : Option (List (String × Nat))) (hne : ns ≠ []) :
    (scanFromParsed ns contents git).health_score
      = specHealth (scanFromParsed ns contents git).nodes := by
  show healthOf (finalNodes ns contents git) = specHealth (finalNodes ns contents git)
  apply healthOf_eq_spec
  · apply List.ne_nil_of_length_pos
    rw [finalNodes_length]
    exact List.length_pos.mpr hne
  · exact finalNodes_no_tested ns contents git

/-- C5 witness at the one-file fixture. -/
theorem claim_C5_witness :
    (scanFromParsed [exA] [] none).health_score
      = specHealth (scanFromParsed [exA] [] none).nodes :=
  claim_C5 [exA] [] none (List.cons_ne_nil exA [])

/-! Critical-files list: on a descending-sorted list, taking 20 then
filtering above 15 equals filtering then taking. -/

theorem mem_insertDesc (x : Node) (l : List Node) (a : Node) :
    a ∈ insertDesc x l ↔ a = x ∨ a ∈ l := by
  induction l with
  | nil => simp [insertDesc]
  | cons y ys ih =>
    unfold insertDesc
    split_ifs with h
    · simp [List.mem_cons]
    · simp only [List.mem_cons, ih]
      tauto

theorem insertDesc_pairwise (x : Node) (l : List Node)
    (h : l.Pairwise (fun a b => b.risk_score ≤ a.risk_score)) :
    (insertDesc x l).Pairwise (fun a b => b.risk_score ≤ a.risk_score) := by
  induction l with
  | nil => simp [insertDesc]
  | cons y ys ih =>
    have h' := List.pairwise_cons.mp h
    unfold insertDesc
    split_ifs with hxy
    · refine List.Pairwise.cons ?_ h
      intro b hb
      rcases List.mem_cons.mp hb with rfl | hb
      · exact hxy
      · exact le_trans (h'.1 b hb) hxy
    · refine List.Pairwise.cons ?_ (ih h'.2)
      intro b hb
      rcases (mem_insertDesc x ys b).mp hb with rfl | hb
      · exact le_of_lt (lt_of_not_le hxy)
      · exact h'.1 b hb

theorem sortDesc_pairwise (l : List Node) :
    (sortDesc l).Pairwise (fun a b => b.risk_score ≤ a.risk_score) := by
  induction l with
  | nil => simp [sortDesc]
  | cons x xs ih => exact insertDesc_pairwise x (sortDesc xs) ih

theorem filter_take_sorted (l : List Node)
    (hl : l.Pairwise (fun a b => b.risk_score ≤ a.risk_score)) (k : ℕ) :
    (l.take k).filter (fun n => decide ((15 : ℚ) < n.risk_score))
      = (l.filter (fun n => decide ((15 : ℚ) < n.risk_score))).take k := by
  induction l generalizing k with
  | nil => simp
  | cons x xs ih =>
    have h' := List.pairwise_cons.mp hl
    cases k with
    | zero => simp
    | succ k' =>
      by_cases hx : (15 : ℚ) < x.risk_score
      · rw [List.take_succ_cons]
        rw [List.filter_cons_of_pos (by simpa using hx),
            List.filter_cons_of_pos (by simpa using hx),
            List.take_succ_cons, ih h'.2]
      · have hall : ∀ b ∈ xs, ¬ ((15 : ℚ) < b.risk_score) := fun b hb hc =>
          hx (lt_of_lt_of_le hc (h'.1 b hb))

        rw [List.take_succ_cons,
            List.filter_cons_of_neg (by simpa using hx),
            List.filter_cons_of_neg (by simpa using hx)]
        have h1 : (xs.take k').filter (fun n => decide ((15 : ℚ) < n.risk_score)) = [] := by
          rw [List.filter_eq_nil_iff]
          intro b hb
          simpa using hall b (List.take_subset k' xs hb)
        have h2 : xs.filter (fun n => decide ((15 : ℚ) < n.risk_score)) = [] := by
          rw [List.filter_eq_nil_iff]
          intro b hb
          simpa using hall b hb
        rw [h1, h2]
        simp

/-- C8: the critical-files list equals the nodes sorted by risk score
descending, filtered to risk strictly above 15, capped at 20 entries,
each entry (`critEntry`) carrying relative path, risk score, fan-in,
tags and binding-point count. -/
theorem claim_C8 (ns : List Node) (contents : List (String × String))
    (git : Option (List (String × Nat))) :
    (scanFromParsed ns contents git).critical_files
      = (((sortDesc (scanFromParsed ns contents git).nodes).filter
          (fun n => decide ((15 : ℚ) < n.risk_score))).take 20).map critEntry := by
  show (((sortDesc (finalNodes ns contents git)).take 20).filter
      (fun n => decide ((15 : ℚ) < n.risk_score))).map critEntry = _
  rw [filter_take_sorted _ (sortDesc_pairwise _) 20]
  rfl

/-! Empty scans. -/

theorem roundHalfEven_intCast (z : ℤ) : roundHalfEven (z : ℚ) = z := by
  unfold roundHalfEven
  rw [ratFloor_eq_intFloor]
  dsimp only
  rw [Int.floor_intCast, if_pos]
  norm_num

theorem healthOf_nil : healthOf [] = 100 := by
  unfold healthOf
  dsimp only
  have harg : (100 : ℚ) - (List.map (·.risk_score) ([] : List Node)).sum
        / ((if ([] : List Node).length = 0 then 1 else ([] : List Node).length : Nat) : ℚ)
        * (0.4 : ℚ)
      - ((([] : List Node).countP
            (fun n => decide ((50 : ℚ) ≤ n.risk_score) && !n.has_tests) : ℕ) : ℚ)
        / ((if ([] : List Node).length = 0 then 1 else ([] : List Node).length : Nat) : ℚ) * 30
      + ((([] : List Node).countP
            (fun n => n.has_tests || decide ("🧪 tested" ∈ n.tags)) : ℕ) : ℚ)
        / ((if ([] : List Node).length = 0 then 1 else ([] : List Node).length : Nat) : ℚ) * 20
      = ((100 : ℤ) : ℚ) := by
    norm_num
  rw [harg, roundHalfEven_intCast]
  norm_num

theorem finalNodes_nil (contents : List (String × String))
    (git : Option (List (String × Nat))) : finalNodes [] contents git = [] := by
  rw [← List.length_eq_zero, finalNodes_length]
  rfl

theorem scan_of_discover_nil (env : ScanEnv) (tree : FSTree) (pid : String)
    (h : discoverPairs (env.mkId pid) "" tree = []) :
    (scan env tree pid).nodes = [] ∧ (scan env tree pid).edges = [] ∧
      (scan env tree pid).total_files = 0 ∧ (scan env tree pid).total_edges = 0 ∧
      (scan env tree pid).health_score = 100 := by
  have hscan : scan env tree pid = scanFromParsed [] [] env.git := by
    unfold scan
    rw [h]
    rfl
  rw [hscan]
  have hnodes : (scanFromParsed [] [] env.git).nodes = [] := finalNodes_nil [] env.git
  have hedges : (scanFromParsed [] [] env.git).edges = [] := rfl
  refine ⟨hnodes, hedges, ?_, ?_, ?_⟩
  · show (finalNodes [] [] env.git).length = 0
    rw [finalNodes_nil]
    rfl
  · rfl
  · show healthOf (finalNodes [] [] env.git) = 100
    rw [finalNodes_nil]
    exact healthOf_nil

theorem discover_ignored_nil : discoverPairs (exEnv.mkId "p") "" exIgnoredTree = [] := by
  simp only [exIgnoredTree, discoverPairs]
  decide

theorem discover_empty_nil :
    discoverPairs (exEnv.mkId (exEnv.genId "d")) "" (exFS.tree "d") = [] := by
  simp only [exFS, exEmptyTree, discoverPairs]
  decide

/-- C10: a scan that discovers zero nodes has health score exactly 100:
the empty-average and empty-fraction terms are all 0 over the guarded
denominator 1. -/
theorem claim_C10 (env : ScanEnv) (tree : FSTree) (pid : String)
    (h : discoverPairs (env.mkId pid) "" tree = []) :
    (scan env tree pid).health_score = 100 :=
  (scan_of_discover_nil env tree pid h).2.2.2.2

/-- C10 witness: a directory holding only an ignored lockfile. -/
theorem claim_C10_witness :
    discoverPairs (exEnv.mkId "p") "" exIgnoredTree = [] ∧
      (scan exEnv exIgnoredTree "p").health_score = 100 :=
  ⟨discover_ignored_nil, claim_C10 exEnv exIgnoredTree "p" discover_ignored_nil⟩

/-! Loading a project. -/

/-- C9 (amended): a load request whose root is not a directory fails
with the distinct not-a-directory error and no snapshot is produced; a
load of an existing directory in which discovery finds nothing succeeds
with a zero-node, zero-edge snapshot, provided the 2-project limit is
not exceeded (the project id is already registered or fewer than 2
projects are open). -/
theorem claim_C9 (env : ScanEnv) (fs : FS) (st : ServerState) (path : String) :
    (fs.isDir (fs.resolve (cleanPath path)) = false →
       load_project env fs st path
         = .error ("Not a directory: " ++ fs.resolve (cleanPath path))) ∧
    (fs.isDir (fs.resolve (cleanPath path)) = true →
       ((alookup st.projects (env.genId (fs.resolve (cleanPath path)))).isSome
          ∨ st.projects.length < MAX_PROJECTS) →
       discoverPairs (env.mkId (env.genId (fs.resolve (cleanPath path)))) ""
           (fs.tree (fs.resolve (cleanPath path))) = [] →
       ∃ st', load_project env fs st path
           = .ok (st', env.genId (fs.resolve (cleanPath path)),
               scan env (fs.tree (fs.resolve (cleanPath path)))
                 (env.genId (fs.resolve (cleanPath path)))) ∧
         (scan env (fs.tree (fs.resolve (cleanPath path)))
             (env.genId (fs.resolve (cleanPath path)))).nodes = [] ∧
         (scan env (fs.tree (fs.resolve (cleanPath path)))
             (env.genId (fs.resolve (cleanPath path)))).edges = [] ∧
         (scan env (fs.tree (fs.resolve (cleanPath path)))
             (env.genId (fs.resolve (cleanPath path)))).total_files = 0 ∧
         (scan env (fs.tree (fs.resolve (cleanPath path)))
             (env.genId (fs.resolve (cleanPath path)))).total_edges = 0) := by
  constructor
  · intro h
    unfold load_project
    rw [if_pos]
    simp [h]
  · intro hdir hlim hdisc
    have hscan := scan_of_discover_nil env
      (fs.tree (fs.resolve (cleanPath path)))
      (env.genId (fs.resolve (cleanPath path))) hdisc
    unfold load_project
    rw [if_neg (by simp [hdir])]
    rw [if_neg ?hc]
    case hc =>
      rintro ⟨h1, h2⟩
      rcases hlim with hs | hlen
      · rw [Option.isNone_iff_eq_none] at h1
        rw [h1] at hs
        simp at hs
      · omega
    exact ⟨_, rfl, hscan.1, hscan.2.1, hscan.2.2.1, hscan.2.2.2.1⟩

/-- C9: the claim asserts that every load of an existing directory that
is empty (or holds only ignored files) succeeds with an empty snapshot.
With two projects already registered and a new valid empty directory
`d`, the code instead raises the project-limit error and produces no
snapshot. -/
theorem claim_C9_counterexample :
    exFS.isDir "d" = true ∧
      discoverPairs (exEnv.mkId (exEnv.genId "d")) "" (exFS.tree "d") = [] ∧
      load_project exEnv exFS exSt2 "d"
        = .error "Maximum 2 projects allowed. Close one first." :=
  ⟨rfl, discover_empty_nil, rfl⟩

/-- C9 witness: the empty state accepts the empty directory `d`, and the
non-directory path `q` is rejected with the distinct error. -/
theorem claim_C9_witness :
    load_project exEnv exFS exSt0 "q" = .error "Not a directory: q" ∧
      ∃ st', load_project exEnv exFS exSt0 "d"
          = .ok (st', exEnv.genId "d", scan exEnv (exFS.tree "d") (exEnv.genId "d")) ∧
        (scan exEnv (exFS.tree "d") (exEnv.genId "d")).nodes = [] ∧
        (scan exEnv (exFS.tree "d") (exEnv.genId "d")).edges = [] ∧
        (scan exEnv (exFS.tree "d") (exEnv.genId "d")).total_files = 0 ∧
        (scan exEnv (exFS.tree "d") (exEnv.genId "d")).total_edges = 0 :=
  ⟨(claim_C9 exEnv exFS exSt0 "q").1 rfl,
   (claim_C9 exEnv exFS exSt0 "d").2 rfl (Or.inr (by decide)) discover_empty_nil⟩

end Carto
